import Mathlib

/-!
Shallow embedding of `boot/bootstrap.js` (a QuickJS bootstrap/provisioning
script) and proofs about its two core functions:

* `mkpath`   — ensure all ancestor directories of a file path exist
               (bootstrap.js lines 12–33);
* `download` — fetch a binary payload, verify its SHA-256 digest against an
               optional checksum list, and write it to a destination file
               (bootstrap.js lines 35–81).

Platform effects (`std.urlGet`, `os.mkdir`, `os.open`, `os.write`,
`os.close`) are modelled as an explicit environment of state-passing
operations; the script's `std.err` diagnostics followed by `os.exit(1)` are
modelled as typed failure results carrying exactly the data the script
prints. The SHA-256 implementation lives in `boot/sha256.js` (an external
building block, not re-specified here); it is treated as an abstract
function parameter `sha256hex`, since no property below depends on its
internals beyond being a function of the payload bytes.

JavaScript-specific semantics are embedded faithfully: `lastIndexOf`,
`slice`, `split('/')`, string truthiness (`subpath ? '/' : ''`), and array
truthiness in `if (checksums && !checksums.includes(digest))` — note that
in JavaScript an *empty array is truthy*, so an empty checksum list does
not skip verification.
-/

namespace Bootstrap

/-- JS `s.lastIndexOf(c)` for a one-character needle: the index of the last
occurrence of `c` in `s`, or `-1` when absent (bootstrap.js line 14). -/
def jsLastIndexOf (s : String) (c : Char) : Int :=
  match s.data.reverse.findIdx? (fun x => x == c) with
  | none => -1
  | some i => (s.data.length : Int) - 1 - (i : Int)

/-- JS `str.split(c)` for a one-character separator, on the character list:
`"a/b" ↦ ["a","b"]`, `"" ↦ [""]`, `"/a" ↦ ["","a"]` (bootstrap.js line 20). -/
def splitCharAux (c : Char) : List Char → List Char → List String
  | [], acc => [String.mk acc.reverse]
  | x :: rest, acc =>
    if x == c then String.mk acc.reverse :: splitCharAux c rest []
    else splitCharAux c rest (x :: acc)

/-- JS `str.split(c)` on a string. -/
def splitChar (c : Char) (s : String) : List String := splitCharAux c s.data []

/-- Occurrence of `pat` as a contiguous sublist of `l`. -/
def listHasSub (pat : List Char) (l : List Char) : Bool :=
  l.tails.any (fun t => pat.isPrefixOf t)

/-- An error thrown by a filesystem operation, carrying its message text. -/
structure FSError where
  message : String
deriving DecidableEq

/-- The test `/EEXIST/.test(e.message)` from bootstrap.js line 30: does the
error message contain the literal text `EEXIST`? -/
def isEEXIST (e : FSError) : Bool := listHasSub "EEXIST".data e.message.data

/-- Outcome of one `os.mkdir` call: success, or an error object. -/
inductive MkdirOutcome where
  | ok
  | err (e : FSError)
deriving DecidableEq

/-- The `os.mkdir` effect: path and mode in, outcome and updated world out. -/
abbrev MkdirOracle (σ : Type) := String → Nat → σ → MkdirOutcome × σ

/-- The `for (const part of parts)` loop of `mkpath` (bootstrap.js lines
23–32): build up `subpath` segment by segment, call `mkdir` on each, swallow
errors whose message contains `EEXIST`, rethrow any other error.  Returns
`(thrown error if any, final world, list of paths passed to mkdir)`. -/
def mkpathLoop {σ : Type} (mkdir : MkdirOracle σ) (mode : Nat) :
    List String → String → σ → Option FSError × σ × List String
  | [], _, s => (none, s, [])
  | part :: rest, subpath, s =>
    let subpath' := if subpath == "" then part else subpath ++ "/" ++ part
    match mkdir subpath' mode s with
    | (.ok, s₁) =>
      let r := mkpathLoop mkdir mode rest subpath' s₁
      (r.1, r.2.1, subpath' :: r.2.2)
    | (.err e, s₁) =>
      if isEEXIST e then
        let r := mkpathLoop mkdir mode rest subpath' s₁
        (r.1, r.2.1, subpath' :: r.2.2)
      else (some e, s₁, [subpath'])

/-- JS `filePath.slice(0, idx)` with `idx = filePath.lastIndexOf('/')`: the
directory portion of the path (bootstrap.js line 18). -/
def dirPortion (filePath : String) : String :=
  String.mk (filePath.data.take (jsLastIndexOf filePath '/').toNat)

/-- JS `dirPath.split('/')`: the ordered directory segments (line 20). -/
def dirSegments (filePath : String) : List String :=
  splitChar '/' (dirPortion filePath)

/-- Default `mode` parameter of `mkpath` (bootstrap.js line 12: `0o755`). -/
def mkpathDefaultMode : Nat := 0o755

/-- Embedding of `mkpath(filePath, mode)` from bootstrap.js lines 12–33.  No-op when the
path has no `/` or only a leading one (`idx <= 0`); otherwise runs the
mkdir loop over the directory segments starting from the empty subpath. -/
def mkpath {σ : Type} (mkdir : MkdirOracle σ) (filePath : String) (mode : Nat)
    (s : σ) : Option FSError × σ × List String :=
  if jsLastIndexOf filePath '/' ≤ 0 then (none, s, [])
  else mkpathLoop mkdir mode (dirSegments filePath) "" s

/-- Result of one `download` call.  Each failure constructor corresponds to
one `std.err` diagnostic + `os.exit(1)` site in bootstrap.js and carries
exactly the data that diagnostic prints. -/
inductive DownloadResult where
  | success (filename : String) (bytes : Nat)
  | fetchError (url : String)
  | checksumMismatch (filename : String) (expected : List String) (got : String)
  | openError (filename : String)
  | incompleteWrite (filename : String) (written : Int) (expected : Nat)
  | fsError (e : FSError)
deriving DecidableEq

/-- The platform operations `download` uses, as state-passing functions over
a world type `σ`: `std.urlGet` (binary fetch, `none` when the result is not
an ArrayBuffer), `os.mkdir`, `os.open` (returning a file descriptor, negative
on failure), `os.write` (returning the byte count written), `os.close`. -/
structure Env (σ : Type) where
  urlGet : String → σ → Option (List Nat) × σ
  mkdir : MkdirOracle σ
  openFile : String → Nat → σ → Int × σ
  write : Int → List Nat → Nat → Nat → σ → Int × σ
  close : Int → σ → σ

/-- The JS condition `checksums && !checksums.includes(digest)` (bootstrap.js
line 47).  `null`/`undefined` is falsy (`none`); every array, including the
empty one, is truthy, so a present-but-empty list rejects every digest. -/
def checksumRejected (checksums : Option (List String)) (digest : String) : Bool :=
  match checksums with
  | none => false
  | some cs => !(cs.contains digest)

/-- Embedding of `download(url, filename, checksums)` from bootstrap.js lines 35–81,
with the process-exit diagnostics reified as `DownloadResult` values and the
SHA-256 of `boot/sha256.js` abstracted as the function `sha256hex`. -/
def download {σ : Type} (env : Env σ) (sha256hex : List Nat → String)
    (url filename : String) (checksums : Option (List String)) (s : σ) :
    DownloadResult × σ :=
  match env.urlGet url s with
  | (none, s₁) => (.fetchError url, s₁)
  | (some dataBuf, s₁) =>
    let digest := sha256hex dataBuf
    if checksumRejected checksums digest then
      (.checksumMismatch filename (checksums.getD []) digest, s₁)
    else
      match mkpath env.mkdir filename mkpathDefaultMode s₁ with
      | (some e, s₂, _) => (.fsError e, s₂)
      | (none, s₂, _) =>
        let fdRes := env.openFile filename 0x755 s₂
        if fdRes.1 < 0 then (.openError filename, fdRes.2)
        else
          let wr := env.write fdRes.1 dataBuf 0 dataBuf.length fdRes.2
          let s₅ := env.close fdRes.1 wr.2
          if wr.1 ≠ (dataBuf.length : Int) then
            (.incompleteWrite filename wr.1 dataBuf.length, s₅)
          else (.success filename dataBuf.length, s₅)

/-! ### A concrete in-memory filesystem instantiating the platform model -/

/-- In-memory filesystem world: created directories with their modes, files
as an association list `path ↦ (content bytes, mode)`, open handles
`fd ↦ path`, and the next file descriptor to hand out. -/
structure FS where
  dirs : List (String × Nat)
  files : List (String × (List Nat × Nat))
  handles : List (Int × String)
  nextFd : Nat
deriving DecidableEq

/-- An empty filesystem; descriptors start at 3 as after stdio setup. -/
def emptyFS : FS := ⟨[], [], [], 3⟩

/-- Does a directory with this exact path string exist? -/
def FS.hasDir (fs : FS) (p : String) : Bool := fs.dirs.any (fun d => d.1 == p)

/-- Content and mode of the file at `p`, if present. -/
def FS.lookupFile (fs : FS) (p : String) : Option (List Nat × Nat) :=
  (fs.files.find? (fun f => f.1 == p)).map (fun f => f.2)

/-- Content of the file at `p`, if present. -/
def FS.fileContent (fs : FS) (p : String) : Option (List Nat) :=
  (fs.lookupFile p).map (fun x => x.1)

/-- Permission mode of the file at `p`, if present. -/
def FS.fileMode (fs : FS) (p : String) : Option Nat :=
  (fs.lookupFile p).map (fun x => x.2)

/-- Well-formedness: every open handle's descriptor is below `nextFd`. -/
def FS.wf (fs : FS) : Bool := fs.handles.all (fun h => h.1 < (fs.nextFd : Int))

/-- The error object a POSIX-like mkdir throws for an existing path. -/
def eexistError : FSError := ⟨"EEXIST: path already exists"⟩

/-- Canonical mkdir on the in-memory filesystem: throws `eexistError` when
the directory is already present, otherwise records it with its mode. -/
def mkdirFS : MkdirOracle FS := fun path mode fs =>
  if fs.hasDir path then (.err eexistError, fs)
  else (.ok, { fs with dirs := fs.dirs ++ [(path, mode)] })

/-- Replace the content of every entry named `p`, keeping its mode. -/
def setFileContent (files : List (String × (List Nat × Nat))) (p : String)
    (c : List Nat) : List (String × (List Nat × Nat)) :=
  files.map (fun f => if f.1 == p then (f.1, (c, f.2.2)) else f)

/-- Canonical `os.open` with `O_CREAT | O_RDWR | O_TRUNC`: truncates an
existing file (keeping its mode), or creates it with the given mode;
returns a fresh descriptor. -/
def openFS (path : String) (mode : Nat) (fs : FS) : Int × FS :=
  let fd : Int := (fs.nextFd : Int)
  let files' :=
    if (fs.files.find? (fun f => f.1 == path)).isSome then
      setFileContent fs.files path []
    else fs.files ++ [(path, ([], mode))]
  (fd,
    { fs with
      files := files'
      handles := fs.handles ++ [(fd, path)]
      nextFd := fs.nextFd + 1 })

/-- Canonical `os.write`: writes `len` bytes of `buf` starting at `pos` to
the file the handle refers to and reports the byte count written; returns
`-1` (EBADF) on an unknown descriptor. -/
def writeFS (fd : Int) (buf : List Nat) (pos len : Nat) (fs : FS) : Int × FS :=
  match fs.handles.find? (fun h => h.1 == fd) with
  | none => (-1, fs)
  | some h =>
    let data := (buf.drop pos).take len
    ((data.length : Int), { fs with files := setFileContent fs.files h.2 data })

/-- Canonical `os.close`: drops the handle. -/
def closeFS (fd : Int) (fs : FS) : FS :=
  { fs with handles := fs.handles.filter (fun h => !(h.1 == fd)) }

/-- The canonical environment over the in-memory filesystem, parameterized
by the network's behavior `fetch`. -/
def fsEnv (fetch : String → Option (List Nat)) : Env FS :=
  { urlGet := fun url fs => (fetch url, fs)
    mkdir := mkdirFS
    openFile := openFS
    write := writeFS
    close := closeFS }

/-- Like `fsEnv`, but the write call transfers at most `k` bytes and reports
the shorter count — a legitimately short write. -/
def fsEnvShortWrite (fetch : String → Option (List Nat)) (k : Nat) : Env FS :=
  { fsEnv fetch with
    write := fun fd buf pos len fs => writeFS fd buf pos (min k len) fs }

/-- Instrument an environment so the world additionally records, in order,
the name of every platform operation invoked. -/
def loggedEnv {σ : Type} (env : Env σ) : Env (σ × List String) :=
  { urlGet := fun url s =>
      let r := env.urlGet url s.1
      (r.1, (r.2, s.2 ++ ["urlGet"]))
    mkdir := fun p m s =>
      let r := env.mkdir p m s.1
      (r.1, (r.2, s.2 ++ ["mkdir"]))
    openFile := fun p m s =>
      let r := env.openFile p m s.1
      (r.1, (r.2, s.2 ++ ["open"]))
    write := fun fd b pos len s =>
      let r := env.write fd b pos len s.1
      (r.1, (r.2, s.2 ++ ["write"]))
    close := fun fd s => (env.close fd s.1, s.2 ++ ["close"]) }

/-- A mkdir oracle in which every call fails with the same error object. -/
def constErrMkdir {σ : Type} (e : FSError) : MkdirOracle σ := fun _ _ s => (.err e, s)

/-! ### Spec-side path vocabulary -/

/-- Join path segments with the separator (spec-side formulation). -/
def joinSegs : List String → String
  | [] => ""
  | [p] => p
  | p :: q :: rest => p ++ "/" ++ joinSegs (q :: rest)

/-- The increasing prefixes of an ordered segment list, each rendered as a
slash-joined path — the spec's "each increasing prefix of the ordered
directory segments". -/
def incPrefixes (parts : List String) : List String :=
  (List.range parts.length).map (fun i => joinSegs (parts.take (i + 1)))

/-- The subpaths `mkpathLoop` builds from an accumulator: helper for
relating the loop's mkdir trace to `incPrefixes`. -/
def joinSeq (acc : String) : List String → List String
  | [] => []
  | p :: rest =>
    let acc' := if acc == "" then p else acc ++ "/" ++ p
    acc' :: joinSeq acc' rest

/-! ### Lemmas about `mkpath` over the canonical filesystem -/

theorem isEEXIST_eexistError : isEEXIST eexistError = true := by decide

theorem splitCharAux_ne_nil (c : Char) (l acc : List Char) :
    splitCharAux c l acc ≠ [] := by
  induction l generalizing acc with
  | nil => simp [splitCharAux]
  | cons x rest ih =>
    unfold splitCharAux
    split
    · simp
    · exact ih _

theorem dirSegments_ne_nil (filePath : String) : dirSegments filePath ≠ [] :=
  splitCharAux_ne_nil _ _ _

theorem mkpathLoop_mkdirFS (mode : Nat) (parts : List String) (acc : String)
    (fs : FS) :
    ∃ fs',
      mkpathLoop mkdirFS mode parts acc fs = (none, fs', joinSeq acc parts) ∧
      fs'.files = fs.files ∧ fs'.handles = fs.handles ∧
      fs'.nextFd = fs.nextFd ∧
      (∀ p, fs.hasDir p = true → fs'.hasDir p = true) ∧
      (∀ q ∈ joinSeq acc parts, fs'.hasDir q = true) := by
  induction parts generalizing acc fs with
  | nil =>
    exact ⟨fs, rfl, rfl, rfl, rfl, fun _ h => h, by simp [joinSeq]⟩
  | cons p rest ih =>
    by_cases hd : fs.hasDir (if acc == "" then p else acc ++ "/" ++ p) = true
    · obtain ⟨fs', h, hf, hh, hn, hmono, hall⟩ :=
        ih (if acc == "" then p else acc ++ "/" ++ p) fs
      refine ⟨fs', ?_, hf, hh, hn, hmono, ?_⟩
      · simp only [mkpathLoop, mkdirFS, hd, if_true, isEEXIST_eexistError, h,
          joinSeq]
      · intro q hq
        simp only [joinSeq, List.mem_cons] at hq
        rcases hq with rfl | hq
        · exact hmono _ hd
        · exact hall _ hq
    · rw [Bool.not_eq_true] at hd
      obtain ⟨fs', h, hf, hh, hn, hmono, hall⟩ :=
        ih (if acc == "" then p else acc ++ "/" ++ p)
          { fs with
            dirs := fs.dirs ++ [(if acc == "" then p else acc ++ "/" ++ p, mode)] }
      have hmono₁ : ∀ q, fs.hasDir q = true →
          FS.hasDir { fs with
            dirs := fs.dirs ++
              [(if acc == "" then p else acc ++ "/" ++ p, mode)] } q = true := by
        intro q hq
        simp only [FS.hasDir, List.any_append, Bool.or_eq_true] at *
        exact Or.inl hq
      have hdir₁ : FS.hasDir { fs with
          dirs := fs.dirs ++
            [(if acc == "" then p else acc ++ "/" ++ p, mode)] }
          (if acc == "" then p else acc ++ "/" ++ p) = true := by
        simp [FS.hasDir, List.any_append]
      refine ⟨fs', ?_, hf, hh, hn, fun q hq => hmono _ (hmono₁ _ hq), ?_⟩
      · simp only [mkpathLoop, mkdirFS, hd, Bool.false_eq_true, if_false, h,
          joinSeq]
      · intro q hq
        simp only [joinSeq, List.mem_cons] at hq
        rcases hq with rfl | hq
        · exact hmono _ hdir₁
        · exact hall _ hq

theorem mkpath_mkdirFS (filePath : String) (mode : Nat) (fs : FS) :
    ∃ fs' tr, mkpath mkdirFS filePath mode fs = (none, fs', tr) ∧
      fs'.files = fs.files ∧ fs'.handles = fs.handles ∧
      fs'.nextFd = fs.nextFd := by
  unfold mkpath
  split
  · exact ⟨fs, [], rfl, rfl, rfl, rfl⟩
  · obtain ⟨fs', h, hf, hh, hn, _, _⟩ :=
      mkpathLoop_mkdirFS mode (dirSegments filePath) "" fs
    exact ⟨fs', _, h, hf, hh, hn⟩

theorem mkpathLoop_mkdirFS_allExists (mode : Nat) (parts : List String)
    (acc : String) (fs : FS)
    (h : ∀ q ∈ joinSeq acc parts, fs.hasDir q = true) :
    mkpathLoop mkdirFS mode parts acc fs = (none, fs, joinSeq acc parts) := by
  induction parts generalizing acc with
  | nil => simp [mkpathLoop, joinSeq]
  | cons p rest ih =>
    have hd : fs.hasDir (if acc == "" then p else acc ++ "/" ++ p) = true := by
      apply h
      simp [joinSeq]
    have hrest : ∀ q ∈ joinSeq (if acc == "" then p else acc ++ "/" ++ p) rest,
        fs.hasDir q = true := by
      intro q hq
      apply h
      simp only [joinSeq, List.mem_cons]
      exact Or.inr hq
    simp only [mkpathLoop, mkdirFS, hd, if_true, isEEXIST_eexistError,
      ih _ hrest, joinSeq]

theorem incPrefixes_cons (p : String) (rest : List String) :
    incPrefixes (p :: rest) =
      p :: (incPrefixes rest).map (fun q => p ++ "/" ++ q) := by
  cases rest with
  | nil => rfl
  | cons r rs =>
    unfold incPrefixes
    rw [List.length_cons, List.range_succ_eq_map, List.map_cons, List.map_map,
      List.map_map]
    congr 1

theorem append_slash_ne_empty (a b : String) : a ++ "/" ++ b ≠ "" := by
  intro hEq
  have h2 : (a ++ "/" ++ b).data = ("" : String).data := congrArg String.data hEq
  rw [String.data_append, String.data_append] at h2
  have h3 : ("/" : String).data = ['/'] := rfl
  have h4 : ("" : String).data = [] := rfl
  rw [h3, h4] at h2
  simp at h2

theorem joinSeq_of_ne_empty (parts : List String) (acc : String) (h : acc ≠ "") :
    joinSeq acc parts = (incPrefixes parts).map (fun q => acc ++ "/" ++ q) := by
  induction parts generalizing acc with
  | nil => simp [joinSeq, incPrefixes]
  | cons p rest ih =>
    have hne : (acc ++ "/" ++ p) ≠ "" := append_slash_ne_empty acc p
    have hb : (acc == "") = false := by
      simpa using h
    simp only [joinSeq, hb, Bool.false_eq_true, if_false, incPrefixes_cons,
      List.map_cons, List.map_map, ih _ hne]
    refine List.cons_eq_cons.mpr ⟨rfl, ?_⟩
    apply List.map_congr_left
    intro q _
    simp [Function.comp, String.append_assoc]

theorem joinSeq_empty_cons (p : String) (rest : List String) (h : p ≠ "") :
    joinSeq "" (p :: rest) = incPrefixes (p :: rest) := by
  have hb : (("" : String) == "") = true := by rfl
  simp only [joinSeq, hb, if_true, incPrefixes_cons, joinSeq_of_ne_empty rest p h]

theorem mkpathLoop_constErr_eexist {σ : Type} (e : FSError)
    (he : isEEXIST e = true) (mode : Nat) (parts : List String) (acc : String)
    (s : σ) :
    mkpathLoop (constErrMkdir e) mode parts acc s = (none, s, joinSeq acc parts) := by
  induction parts generalizing acc with
  | nil => simp [mkpathLoop, joinSeq]
  | cons p rest ih =>
    simp only [mkpathLoop, constErrMkdir, he, if_true, ih, joinSeq]

theorem mkpathLoop_constErr_other {σ : Type} (e : FSError)
    (he : isEEXIST e = false) (mode : Nat) (p : String) (rest : List String)
    (acc : String) (s : σ) :
    mkpathLoop (constErrMkdir e) mode (p :: rest) acc s =
      (some e, s, [if acc == "" then p else acc ++ "/" ++ p]) := by
  simp only [mkpathLoop, constErrMkdir, he, Bool.false_eq_true, if_false]

/-! ### Claim theorems about `mkpath` -/

/-- C5 (amended): for every slash-separated path that does not begin with the
separator (a relative path) and has a directory portion, `mkpath` invokes
directory-create on exactly the increasing prefixes of the ordered directory
segments, throws nothing, and afterwards every such ancestor prefix exists
as a directory in the canonical filesystem. -/
theorem mkpath_relative_creates_ancestors (filePath : String) (mode : Nat)
    (fs : FS) (hidx : 0 < jsLastIndexOf filePath '/')
    (hrel : (dirSegments filePath).head? ≠ some "") :
    ∃ fs',
      mkpath mkdirFS filePath mode fs =
        (none, fs', incPrefixes (dirSegments filePath)) ∧
      ∀ d ∈ incPrefixes (dirSegments filePath), fs'.hasDir d = true := by
  obtain ⟨p, rest, hps⟩ : ∃ p rest, dirSegments filePath = p :: rest := by
    cases hsegs : dirSegments filePath with
    | nil => exact absurd hsegs (dirSegments_ne_nil filePath)
    | cons p rest => exact ⟨p, rest, rfl⟩
  have hp : p ≠ "" := by
    intro h
    rw [hps, h] at hrel
    simp at hrel
  unfold mkpath
  rw [if_neg (by omega)]
  obtain ⟨fs', h, _, _, _, _, hall⟩ :=
    mkpathLoop_mkdirFS mode (dirSegments filePath) "" fs
  rw [hps] at h hall ⊢
  rw [joinSeq_empty_cons p rest hp] at h hall
  exact ⟨fs', h, hall⟩

/-- C5 witness: a concrete relative path whose two ancestor directories both
exist after `mkpath`. -/
theorem mkpath_relative_creates_ancestors_witness :
    (mkpath mkdirFS "boot/cosmo/app.com" mkpathDefaultMode
      emptyFS).2.1.hasDir "boot" = true ∧
    (mkpath mkdirFS "boot/cosmo/app.com" mkpathDefaultMode
      emptyFS).2.1.hasDir "boot/cosmo" = true := by
  obtain ⟨fs', h, hall⟩ := mkpath_relative_creates_ancestors "boot/cosmo/app.com"
    mkpathDefaultMode emptyFS (by decide) (by decide)
  rw [h]
  exact ⟨hall _ (by decide), hall _ (by decide)⟩

/-- C5 counterexample: on the absolute path `/a/b/c` the claim fails: the
ancestor directory `/a` does not exist afterwards, and the mkdir calls are
`["", "a", "a/b"]` — relative paths, not the increasing prefixes
`["", "/a", "/a/b"]` of the ordered directory segments.  (The JS expression
`subpath += (subpath ? '/' : '') + part` drops the leading separator because
the first segment of an absolute path is the empty, falsy string.) -/
theorem mkpath_absolute_path_counterexample :
    (mkpath mkdirFS "/a/b/c" mkpathDefaultMode emptyFS).2.1.hasDir "/a" = false ∧
    (mkpath mkdirFS "/a/b/c" mkpathDefaultMode emptyFS).2.2 = ["", "a", "a/b"] ∧
    (mkpath mkdirFS "/a/b/c" mkpathDefaultMode emptyFS).2.2 ≠
      incPrefixes (dirSegments "/a/b/c") := by
  decide

/-- C8: with a mkdir oracle that fails every call with the same error `e`,
`mkpath` on a path with a directory portion returns normally when `e`'s
message contains `EEXIST` (the failure is swallowed) and rethrows exactly
`e` otherwise (any other failure propagates); the world is not modified
either way. -/
theorem mkpath_error_propagation {σ : Type} (e : FSError) (filePath : String)
    (mode : Nat) (s : σ) (hidx : 0 < jsLastIndexOf filePath '/') :
    (mkpath (constErrMkdir e) filePath mode s).1 =
      (if isEEXIST e then none else some e) ∧
    (mkpath (constErrMkdir e) filePath mode s).2.1 = s := by
  obtain ⟨p, rest, hps⟩ : ∃ p rest, dirSegments filePath = p :: rest := by
    cases hsegs : dirSegments filePath with
    | nil => exact absurd hsegs (dirSegments_ne_nil filePath)
    | cons p rest => exact ⟨p, rest, rfl⟩
  unfold mkpath
  rw [if_neg (by omega), hps]
  cases he : isEEXIST e with
  | true =>
    rw [mkpathLoop_constErr_eexist e he]
    simp
  | false =>
    rw [mkpathLoop_constErr_other e he]
    simp

/-- C8 witness: a non-EEXIST failure (permission denied) propagates out of
`mkpath`, while an EEXIST failure is swallowed. -/
theorem mkpath_error_propagation_witness :
    (mkpath (constErrMkdir ⟨"EACCES: permission denied"⟩) "a/b/c" 0o755
      emptyFS).1 = some ⟨"EACCES: permission denied"⟩ ∧
    (mkpath (constErrMkdir eexistError) "a/b/c" 0o755 emptyFS).1 = none := by
  constructor
  · have h := (mkpath_error_propagation ⟨"EACCES: permission denied"⟩ "a/b/c"
      0o755 emptyFS (by decide)).1
    have he : isEEXIST ⟨"EACCES: permission denied"⟩ = false := by decide
    rw [he] at h
    simpa using h
  · have h := (mkpath_error_propagation eexistError "a/b/c" 0o755 emptyFS
      (by decide)).1
    rw [isEEXIST_eexistError] at h
    simpa using h

/-- C9: running `mkpath` a second time on the same path over the canonical
filesystem returns no error, leaves the filesystem exactly as the first run
left it, and attempts the same mkdir calls. -/
theorem mkpath_idempotent (filePath : String) (mode : Nat) (fs : FS) :
    mkpath mkdirFS filePath mode ((mkpath mkdirFS filePath mode fs).2.1) =
      (none, (mkpath mkdirFS filePath mode fs).2.1,
        (mkpath mkdirFS filePath mode fs).2.2) := by
  by_cases hc : jsLastIndexOf filePath '/' ≤ 0
  · simp [mkpath, hc]
  · obtain ⟨fs', h, _, _, _, _, hall⟩ :=
      mkpathLoop_mkdirFS mode (dirSegments filePath) "" fs
    simp only [mkpath, hc, if_false, h]
    exact mkpathLoop_mkdirFS_allExists mode _ "" fs' hall

/-! ### Lemmas about `download` over the canonical filesystem -/

theorem find?_append_of_none {α : Type} (p : α → Bool) (l₁ l₂ : List α)
    (h : l₁.find? p = none) : (l₁ ++ l₂).find? p = l₂.find? p := by
  induction l₁ with
  | nil => rfl
  | cons x rest ih =>
    rw [List.find?_cons] at h
    rw [List.cons_append, List.find?_cons]
    cases hx : p x with
    | true => rw [hx] at h; simp at h
    | false =>
      rw [hx] at h
      exact ih h

theorem find?_handles_below (hs : List (Int × String)) (n : Int)
    (h : ∀ x ∈ hs, x.1 < n) : hs.find? (fun x => x.1 == n) = none := by
  rw [List.find?_eq_none]
  intro x hx
  simp only [beq_iff_eq]
  exact (h x hx).ne

theorem find?_setFileContent (files : List (String × (List Nat × Nat)))
    (p : String) (c : List Nat) :
    (setFileContent files p c).find? (fun f => f.1 == p) =
      (files.find? (fun f => f.1 == p)).map (fun f => (f.1, (c, f.2.2))) := by
  induction files with
  | nil => rfl
  | cons f rest ih =>
    by_cases h : f.1 = p
    · simp [setFileContent, List.find?_cons, h]
    · have hb : (f.1 == p) = false := by simpa using h
      have hsfc : setFileContent (f :: rest) p c = f :: setFileContent rest p c := by
        simp only [setFileContent, List.map_cons, hb, Bool.false_eq_true, if_false]
      rw [hsfc, List.find?_cons, List.find?_cons]
      simp only [hb]
      exact ih

theorem fileContent_after_write (files : List (String × (List Nat × Nat)))
    (fn : String) (P : List Nat) (mode : Nat) :
    (List.find? (fun f => f.1 == fn)
      (setFileContent
        (if (files.find? (fun f => f.1 == fn)).isSome then
          setFileContent files fn []
        else files ++ [(fn, ([], mode))]) fn P)).map (fun f => f.2.1) = some P := by
  by_cases h : (files.find? (fun f => f.1 == fn)).isSome
  · rw [if_pos h, find?_setFileContent, find?_setFileContent]
    obtain ⟨f₀, hf₀⟩ := Option.isSome_iff_exists.mp h
    rw [hf₀]
    rfl
  · rw [if_neg h]
    rw [Option.not_isSome_iff_eq_none] at h
    unfold setFileContent
    rw [List.map_append, find?_append_of_none]
    · simp
    · rw [show List.map
          (fun f => if f.1 == fn then (f.1, (P, f.2.2)) else f) files =
          setFileContent files fn P from rfl, find?_setFileContent, h]
      rfl

theorem download_fsEnv_success (fetch : String → Option (List Nat))
    (sha256hex : List Nat → String) (url fn : String) (P : List Nat)
    (cs : Option (List String)) (fs : FS) (hf : fetch url = some P)
    (hc : checksumRejected cs (sha256hex P) = false) (hwf : fs.wf = true) :
    (download (fsEnv fetch) sha256hex url fn cs fs).1 =
      .success fn P.length ∧
    ((download (fsEnv fetch) sha256hex url fn cs fs).2).fileContent fn =
      some P := by
  obtain ⟨fs₂, tr, hmk, hfiles, hhandles, hnext⟩ :=
    mkpath_mkdirFS fn mkpathDefaultMode fs
  have hwf₂ : ∀ x ∈ fs₂.handles, x.1 < ((fs₂.nextFd : Nat) : Int) := by
    rw [hhandles, hnext]
    simpa [FS.wf, List.all_eq_true] using hwf
  constructor
  · simp only [download, fsEnv, hf, hc, Bool.false_eq_true, if_false, hmk, openFS]
    rw [if_neg (not_lt.mpr (Int.natCast_nonneg _))]
    simp only [writeFS]
    rw [find?_append_of_none _ _ _ (find?_handles_below _ _ hwf₂)]
    simp only [List.find?_cons, beq_self_eq_true, List.drop_zero,
      List.take_length]
    rw [if_neg (by simp)]
  · simp only [download, fsEnv, hf, hc, Bool.false_eq_true, if_false, hmk, openFS]
    rw [if_neg (not_lt.mpr (Int.natCast_nonneg _))]
    simp only [writeFS]
    rw [find?_append_of_none _ _ _ (find?_handles_below _ _ hwf₂)]
    simp only [List.find?_cons, beq_self_eq_true, List.drop_zero,
      List.take_length]
    rw [if_neg (by simp)]
    simp only [closeFS, FS.fileContent, FS.lookupFile, Option.map_map,
      Function.comp, hfiles]
    exact fileContent_after_write fs.files fn P 0x755
/-! ### Claim theorems about `download` -/

/-- C1: whenever `download` over the canonical filesystem reports success,
the file at the destination exists, its content is byte-identical to the
fetched payload (hence its length is exactly the payload length), and when a
non-empty checksum list was supplied the payload's digest is a member of it. -/
theorem download_success_file_invariant (fetch : String → Option (List Nat))
    (sha256hex : List Nat → String) (url fn : String)
    (cs : Option (List String)) (fs fs' : FS) (f : String) (n : Nat)
    (hwf : fs.wf = true)
    (hs : download (fsEnv fetch) sha256hex url fn cs fs = (.success f n, fs')) :
    ∃ P, fetch url = some P ∧ fs'.fileContent fn = some P ∧ P.length = n ∧
      ∀ l, cs = some l → l ≠ [] → sha256hex P ∈ l := by
  cases hfetch : fetch url with
  | none => simp [download, fsEnv, hfetch] at hs
  | some P =>
    cases hrej : checksumRejected cs (sha256hex P) with
    | true => simp [download, fsEnv, hfetch, hrej] at hs
    | false =>
      obtain ⟨h1, h2⟩ :=
        download_fsEnv_success fetch sha256hex url fn P cs fs hfetch hrej hwf
      rw [hs] at h1 h2
      simp only [DownloadResult.success.injEq] at h1
      obtain ⟨hfn, hn⟩ := h1
      refine ⟨P, rfl, h2, hn.symm, ?_⟩
      intro l hl _
      rw [hl] at hrej
      simpa [checksumRejected] using hrej

/-- C1 witness: a concrete checksummed success run whose destination file
holds exactly the fetched payload. -/
theorem download_success_file_invariant_witness :
    (download (fsEnv (fun _ => some [7, 8])) (fun _ => "aa") "u" "d/f"
      (some ["aa"]) emptyFS).2.fileContent "d/f" = some [7, 8] := by
  obtain ⟨P, h1, h2, h3, h4⟩ :=
    download_success_file_invariant (fun _ => some [7, 8]) (fun _ => "aa") "u"
      "d/f" (some ["aa"]) emptyFS
      (download (fsEnv (fun _ => some [7, 8])) (fun _ => "aa") "u" "d/f"
        (some ["aa"]) emptyFS).2 "d/f" 2 (by decide) rfl
  simp only [Option.some.injEq] at h1
  rw [← h1] at h2
  exact h2

/-- C2: for every payload `P`, when the acceptable digest set is exactly
`{sha256hex P}`, `download` succeeds and the destination file's content is
byte-identical to `P`. -/
theorem download_roundtrip (fetch : String → Option (List Nat))
    (sha256hex : List Nat → String) (url fn : String) (P : List Nat) (fs : FS)
    (hf : fetch url = some P) (hwf : fs.wf = true) :
    (download (fsEnv fetch) sha256hex url fn (some [sha256hex P]) fs).1 =
      .success fn P.length ∧
    ((download (fsEnv fetch) sha256hex url fn
      (some [sha256hex P]) fs).2).fileContent fn = some P :=
  download_fsEnv_success fetch sha256hex url fn P (some [sha256hex P]) fs hf
    (by simp [checksumRejected]) hwf

/-- C2 witness: a concrete round trip. -/
theorem download_roundtrip_witness :
    (download (fsEnv (fun _ => some [1, 2, 3])) (fun _ => "h") "u" "a/b.bin"
      (some ["h"]) emptyFS).1 = .success "a/b.bin" 3 ∧
    (download (fsEnv (fun _ => some [1, 2, 3])) (fun _ => "h") "u" "a/b.bin"
      (some ["h"]) emptyFS).2.fileContent "a/b.bin" = some [1, 2, 3] :=
  download_roundtrip (fun _ => some [1, 2, 3]) (fun _ => "h") "u" "a/b.bin"
    [1, 2, 3] emptyFS rfl (by decide)

/-- C3 counterexample: with a present-but-*empty* checksum list, `download`
does not skip verification and does not succeed: the JS test
`checksums && !checksums.includes(digest)` treats the empty array as truthy
and `[].includes(digest)` is always false, so every payload is rejected with
a checksum mismatch. -/
theorem download_empty_checksums_rejects :
    download (fsEnv (fun _ => some [1, 2, 3])) (fun _ => "d") "u" "f"
      (some []) emptyFS = (.checksumMismatch "f" [] "d", emptyFS) ∧
    DownloadResult.checksumMismatch "f" [] "d" ≠ .success "f" 3 := by
  decide

/-- C3 (amended): when `checksums` is *absent* (JS `null`), verification is
skipped and `download` succeeds for every fetched payload, writing the file
verbatim; a present-but-empty list instead rejects every payload. -/
theorem download_absent_checksums_skips_verification
    (fetch : String → Option (List Nat)) (sha256hex : List Nat → String)
    (url fn : String) (P : List Nat) (fs : FS) (hf : fetch url = some P)
    (hwf : fs.wf = true) :
    (download (fsEnv fetch) sha256hex url fn none fs).1 =
      .success fn P.length ∧
    ((download (fsEnv fetch) sha256hex url fn none fs).2).fileContent fn =
      some P :=
  download_fsEnv_success fetch sha256hex url fn P none fs hf rfl hwf

/-- C3 witness: a concrete no-checksum run that writes the payload verbatim. -/
theorem download_absent_checksums_skips_verification_witness :
    (download (fsEnv (fun _ => some [9])) (fun _ => "z") "u" "x/y" none
      emptyFS).1 = .success "x/y" 1 ∧
    (download (fsEnv (fun _ => some [9])) (fun _ => "z") "u" "x/y" none
      emptyFS).2.fileContent "x/y" = some [9] :=
  download_absent_checksums_skips_verification (fun _ => some [9])
    (fun _ => "z") "u" "x/y" [9] emptyFS rfl (by decide)

/-- C4: in any environment, when a checksum list is provided and the
payload's digest is not a member of it, `download` fails with
`checksumMismatch` carrying the expected list and the computed digest — this
includes the empty provided list. -/
theorem download_checksum_mismatch {σ : Type} (env : Env σ)
    (sha256hex : List Nat → String) (url fn : String) (P : List Nat)
    (cs : List String) (s s₁ : σ) (hu : env.urlGet url s = (some P, s₁))
    (hc : cs.contains (sha256hex P) = false) :
    download env sha256hex url fn (some cs) s =
      (.checksumMismatch fn cs (sha256hex P), s₁) := by
  have hrej : checksumRejected (some cs) (sha256hex P) = true := by
    simp only [checksumRejected]
    simpa using hc
  simp [download, hu, hrej]

/-- C4 witness: a concrete mismatch carrying the provided list and digest. -/
theorem download_checksum_mismatch_witness :
    download (fsEnv (fun _ => some [5])) (fun _ => "dd") "u" "f"
      (some ["aa", "bb"]) emptyFS =
      (.checksumMismatch "f" ["aa", "bb"] "dd", emptyFS) :=
  download_checksum_mismatch (fsEnv (fun _ => some [5])) (fun _ => "dd") "u"
    "f" [5] ["aa", "bb"] emptyFS emptyFS rfl (by decide)

/-- C6: when the underlying write transfers only `k < len(P)` bytes and
reports that count, `download` fails with `incompleteWrite` carrying the
actual count written and the expected payload length. -/
theorem download_short_write (fetch : String → Option (List Nat))
    (sha256hex : List Nat → String) (url fn : String) (P : List Nat)
    (cs : Option (List String)) (k : Nat) (fs : FS) (hf : fetch url = some P)
    (hc : checksumRejected cs (sha256hex P) = false) (hwf : fs.wf = true)
    (hk : k < P.length) :
    (download (fsEnvShortWrite fetch k) sha256hex url fn cs fs).1 =
      .incompleteWrite fn (k : Int) P.length := by
  obtain ⟨fs₂, tr, hmk, hfiles, hhandles, hnext⟩ :=
    mkpath_mkdirFS fn mkpathDefaultMode fs
  have hwf₂ : ∀ x ∈ fs₂.handles, x.1 < ((fs₂.nextFd : Nat) : Int) := by
    rw [hhandles, hnext]
    simpa [FS.wf, List.all_eq_true] using hwf
  simp only [download, fsEnvShortWrite, fsEnv, hf, hc, Bool.false_eq_true,
    if_false, hmk, openFS]
  rw [if_neg (not_lt.mpr (Int.natCast_nonneg _))]
  simp only [writeFS]
  rw [find?_append_of_none _ _ _ (find?_handles_below _ _ hwf₂)]
  simp only [List.find?_cons, beq_self_eq_true, List.drop_zero]
  have hmin : min k P.length = k := min_eq_left hk.le
  rw [hmin]
  have hlen : (P.take k).length = k := by
    simp [List.length_take, hmin]
  rw [hlen]
  rw [if_pos (by exact_mod_cast hk.ne)]

/-- C6 witness: a concrete short write of 1 of 3 bytes. -/
theorem download_short_write_witness :
    (download (fsEnvShortWrite (fun _ => some [1, 2, 3]) 1) (fun _ => "h") "u"
      "d/f" none emptyFS).1 = .incompleteWrite "d/f" 1 3 :=
  download_short_write (fun _ => some [1, 2, 3]) (fun _ => "h") "u" "d/f"
    [1, 2, 3] none 1 emptyFS rfl rfl (by decide) (by decide)

/-- C7: whenever `download` fails with a checksum mismatch, the only platform
operation that ran is the fetch: the instrumented call log is exactly
`["urlGet"]` — no mkdir, no open, no truncation, no write — and the world is
exactly what the fetch left, because verification precedes the
directory-ensure and write steps. -/
theorem download_mismatch_no_fs_mutation {σ : Type} (env : Env σ)
    (sha256hex : List Nat → String) (url fn : String)
    (cs : Option (List String)) (s : σ) (f : String) (e : List String)
    (g : String) (s' : σ) (log : List String)
    (hs : download (loggedEnv env) sha256hex url fn cs (s, []) =
      (.checksumMismatch f e g, (s', log))) :
    log = ["urlGet"] ∧ s' = (env.urlGet url s).2 := by
  unfold download at hs
  split at hs
  · simp at hs
  · rename_i P s₁ heq
    simp only [loggedEnv, List.nil_append, Prod.mk.injEq] at heq
    by_cases hrej : checksumRejected cs (sha256hex P) = true
    · rw [if_pos hrej] at hs
      simp only [Prod.mk.injEq] at hs
      obtain ⟨-, hstate⟩ := hs
      have hp := heq.2.trans hstate
      simp only [Prod.mk.injEq] at hp
      exact ⟨hp.2.symm, hp.1.symm⟩
    · rw [if_neg hrej] at hs
      split at hs
      · simp at hs
      · dsimp only at hs
        split at hs
        · simp at hs
        · split at hs
          · simp at hs
          · simp at hs

/-- C7 witness: a concrete mismatch run whose call log is exactly
`["urlGet"]` and whose filesystem is untouched. -/
theorem download_mismatch_no_fs_mutation_witness :
    (["urlGet"] : List String) = ["urlGet"] ∧
    emptyFS = ((fsEnv (fun _ => some [1, 2])).urlGet "u" emptyFS).2 :=
  download_mismatch_no_fs_mutation (fsEnv (fun _ => some [1, 2]))
    (fun _ => "d") "u" "f" (some []) emptyFS "f" [] "d" emptyFS ["urlGet"]
    (by decide)

/-- C10: the destination file is opened with the hexadecimal literal mode
`0x755`, which is 1877 in decimal, i.e. octal 0o3525 — not the octal
`0o755` (= 493) that `mkpath` uses as its default directory mode.  A freshly
created destination file records mode 1877 while the ancestor directories
created during the same run record 493. -/
theorem download_open_mode_hex :
    (download (fsEnv (fun _ => some [1, 2, 3, 4])) (fun _ => "d") "u"
      "out/dir/a.bin" none emptyFS).1 = .success "out/dir/a.bin" 4 ∧
    (download (fsEnv (fun _ => some [1, 2, 3, 4])) (fun _ => "d") "u"
      "out/dir/a.bin" none emptyFS).2.fileMode "out/dir/a.bin" = some 0x755 ∧
    (download (fsEnv (fun _ => some [1, 2, 3, 4])) (fun _ => "d") "u"
      "out/dir/a.bin" none emptyFS).2.dirs =
      [("out", mkpathDefaultMode), ("out/dir", mkpathDefaultMode)] ∧
    (0x755 : Nat) = 1877 ∧ (0o3525 : Nat) = 1877 ∧ (0x755 : Nat) ≠ 0o755 ∧
    (0o755 : Nat) = 493 := by
  decide

end Bootstrap
